import Mathlib

/-!
Verification of the `coadd_utils` accumulation core against its specification.

The Python driver `python/lsst/coadd/utils/coadd.py` is embedded shallowly:
images become total functions from integer pixel positions to exact rationals
(`ℚ` stands in for the program's floating-point planes, making the arithmetic
identities exact), masks become functions to `Nat` bit patterns, and the
stateful `Coadd` object becomes explicit state passing.  The pixel kernels
`addToCoadd` and `setCoaddEdgeBits` and the sigma-clipped mean statistic are
implemented outside the Python sources; they are modelled from the
specification text, as marked on each definition.
-/

namespace CoaddUtils

/-- An integral, axis-aligned pixel box: inclusive minimum corner `(x0, y0)`
with `width × height` pixels, in the shared parent pixel frame
(`lsst.afw.geom.Box2I`). -/
structure Box where
  x0 : Int
  y0 : Int
  width : Nat
  height : Nat
  deriving DecidableEq, Repr

/-- Membership of a pixel position in a box. -/
def Box.mem (b : Box) (p : Int × Int) : Prop :=
  b.x0 ≤ p.1 ∧ p.1 < b.x0 + (b.width : Int) ∧ b.y0 ≤ p.2 ∧ p.2 < b.y0 + (b.height : Int)

instance (b : Box) (p : Int × Int) : Decidable (Box.mem b p) := by
  unfold Box.mem
  exact inferInstance

/-- All pixel positions of a box, row by row. -/
def Box.positions (b : Box) : List (Int × Int) :=
  (List.range b.height).flatMap fun (j : Nat) =>
    (List.range b.width).map fun (i : Nat) => (b.x0 + (i : Int), b.y0 + (j : Int))

/-- Rectangular intersection of two boxes (`Box2I.clip`); empty when the boxes
do not overlap. -/
def Box.inter (a b : Box) : Box :=
  ⟨max a.x0 b.x0, max a.y0 b.y0,
    (min (a.x0 + (a.width : Int)) (b.x0 + (b.width : Int)) - max a.x0 b.x0).toNat,
    (min (a.y0 + (a.height : Int)) (b.y0 + (b.height : Int)) - max a.y0 b.y0).toNat⟩

/-- A world coordinate system handle.  WCS transforms are an external
collaborator; only the identity of the handle matters to these claims. -/
structure Wcs where
  id : Nat
  deriving DecidableEq, Repr

/-- An `afwImage.MaskedImage`: an image plane, a parallel variance plane and a
parallel integer mask plane, sharing one box.  Values outside the box are
irrelevant to every operation. -/
structure MaskedImage where
  box : Box
  image : Int × Int → ℚ
  variance : Int × Int → ℚ
  mask : Int × Int → Nat

/-- An `afwImage.Exposure`: a masked image plus photometric calibration and a
WCS.  `calib m` is the calibration's flux at magnitude `m`
(`Calib.getFlux`), an external-collaborator function carried as data. -/
structure Exposure where
  mi : MaskedImage
  calib : ℚ → ℚ
  wcs : Wcs

/-- Scalar in-place multiplication `maskedImage *= s` (afw semantics): the
image plane is scaled by `s` and the variance plane by `s * s`; the mask plane
is untouched.  `coadd.py` applies this to a deep copy of the input exposure's
masked image. -/
def scaleMaskedImage (mi : MaskedImage) (s : ℚ) : MaskedImage :=
  { mi with
    image := fun p => mi.image p * s
    variance := fun p => mi.variance p * (s * s) }

/-- The bit value of the "EDGE" mask plane.  afw assigns mask-plane bits
dynamically; the claims only need one fixed reserved bit, here bit 4. -/
def edgeBit : Nat := 16

/-- Clear the reserved EDGE bit from a mask pattern (the accumulation kernel
ORs exposure mask bits into the cumulative mask excluding the reserved
coverage/edge bits). -/
def stripEdge (m : Nat) : Nat :=
  if m &&& edgeBit = 0 then m else m ^^^ edgeBit

/-- Mean of a list of samples; `none` on an empty list. -/
def mean (xs : List ℚ) : Option ℚ :=
  if xs.isEmpty then none else some (xs.sum / (xs.length : ℚ))

/-- Modelled from the spec: one sigma-clipping pass of the statistics engine
(the `afwMath.MEANCLIP` iteration body, absent from the Python sources):
samples farther than `sigma` standard deviations from the current mean are
discarded.  The threshold is compared on squares, `(x − μ)² ≤ sigmaSq · s²`
with `sigmaSq` the square of the clip sigma, which is exact over `ℚ`. -/
def clipStep (sigmaSq : ℚ) (xs : List ℚ) : List ℚ :=
  match mean xs with
  | none => []
  | some mu =>
    let sampleVar := ((xs.map fun x => (x - mu) ^ 2).sum) / (xs.length : ℚ)
    xs.filter fun x => decide ((x - mu) ^ 2 ≤ sigmaSq * sampleVar)

/-- Modelled from the spec: the sigma-clipped mean (`afwMath.MEANCLIP`, absent
from the Python sources): iteratively discard samples beyond the clip
threshold for the configured iteration count, then take the mean of the
surviving samples; `none` when no samples survive. -/
def meanClip (sigmaSq : ℚ) (nIter : Nat) (xs : List ℚ) : Option ℚ :=
  mean ((clipStep sigmaSq)^[nIter] xs)

/-- The variance samples entering the statistics call: the variance-plane
values at the pixels of the image's box whose mask does not intersect the
bad-pixel mask (`StatisticsControl.setAndMask`). -/
def varSample (mi : MaskedImage) (bad : Nat) : List ℚ :=
  (mi.box.positions.filter fun p => mi.mask p &&& bad == 0).map mi.variance

/-- The state of a `Coadd` object (`coadd.py`): the fixed construction
parameters, plus the accumulator state — the running weighted-sum image
(the image plane of `self._coadd`), the weight map and the cumulative mask. -/
structure Coadd where
  bbox : Box
  wcs : Wcs
  badPixelMask : Nat
  coaddZeroPoint : ℚ
  sum : Int × Int → ℚ
  weightMap : Int × Int → ℚ
  cmask : Int × Int → Nat

/-- Constructor `Coadd.__init__`: fixed geometry and configuration; the
accumulator planes start at zero. -/
def mkCoadd (bbox : Box) (wcs : Wcs) (badPixelMask : Nat) (coaddZeroPoint : ℚ) : Coadd :=
  { bbox := bbox
    wcs := wcs
    badPixelMask := badPixelMask
    coaddZeroPoint := coaddZeroPoint
    sum := fun _ => 0
    weightMap := fun _ => 0
    cmask := fun _ => 0 }

/-- Modelled from the spec: the C++ accumulation kernel
`utilsLib.addToCoadd`, absent from the Python sources.  Per pixel of the
rectangular overlap of the exposure footprint with the coadd bounding box:
a pixel whose mask intersects the bad-pixel mask is skipped for `sum` and
`weightMap` but its mask bits (excluding the reserved edge bit) are still
ORed into the cumulative mask; every other pixel receives
`sum += weight·value`, `weightMap += weight` and the same mask OR.  Returns
the new state and the overlap box. -/
def addToCoadd (c : Coadd) (mi : MaskedImage) (w : ℚ) : Coadd × Box :=
  ({ c with
      sum := fun p =>
        if Box.mem (Box.inter c.bbox mi.box) p ∧ mi.mask p &&& c.badPixelMask = 0 then
          c.sum p + w * mi.image p
        else c.sum p
      weightMap := fun p =>
        if Box.mem (Box.inter c.bbox mi.box) p ∧ mi.mask p &&& c.badPixelMask = 0 then
          c.weightMap p + w
        else c.weightMap p
      cmask := fun p =>
        if Box.mem (Box.inter c.bbox mi.box) p then c.cmask p ||| stripEdge (mi.mask p)
        else c.cmask p },
    Box.inter c.bbox mi.box)

/-- The clipped mean variance computed by `Coadd.addExposure`: the statistics
run on the variance plane of the *scaled* deep copy (clip sigma 3.0, hence
`sigmaSq = 9`; 2 iterations), rejecting pixels that intersect the bad-pixel
mask. -/
def statMeanVar (c : Coadd) (e : Exposure) : Option ℚ :=
  meanClip 9 2 (varSample (scaleMaskedImage e.mi (1 / e.calib c.coaddZeroPoint)) c.badPixelMask)

/-- Result of `Coadd.addExposure`: the overlap box and applied weight the call
returns, the coadd state after the call, and the caller's exposure as it
stands after the call (the code scales only a deep copy, `coadd.py:110`). -/
structure AddResult where
  overlap : Box
  weight : ℚ
  state : Coadd
  exposurePost : Exposure

/-- Operation `Coadd.addExposure`: normalize a deep copy of the masked image
by `1 / getFlux(coaddZeroPoint)`, compute the clipped mean of the scaled
variance plane, set `weight = weightFactor / meanVar` and fold the scaled
copy into the accumulator.  `none` models the Python-level exceptions: a zero
flux or a zero clipped mean variance raises `ZeroDivisionError`, and an empty
statistics sample fails inside the statistics engine; in each case the
accumulator is not touched. -/
def addExposure (c : Coadd) (e : Exposure) (weightFactor : ℚ) : Option AddResult :=
  if e.calib c.coaddZeroPoint = 0 then none
  else
    match statMeanVar c e with
    | none => none
    | some meanVar =>
      if meanVar = 0 then none
      else
        some
          { overlap :=
              (addToCoadd c (scaleMaskedImage e.mi (1 / e.calib c.coaddZeroPoint))
                (weightFactor / meanVar)).2
            weight := weightFactor / meanVar
            state :=
              (addToCoadd c (scaleMaskedImage e.mi (1 / e.calib c.coaddZeroPoint))
                (weightFactor / meanVar)).1
            exposurePost := e }

/-- The applied weight returned by `Coadd.addExposure`, when the call
succeeds. -/
def addExposureWeight (c : Coadd) (e : Exposure) (weightFactor : ℚ) : Option ℚ :=
  (addExposure c e weightFactor).map AddResult.weight

/-- Modelled from the spec: the C++ kernel `utilsLib.setCoaddEdgeBits`, absent
from the Python sources.  At every pixel of the shared box whose weight-map
value is exactly zero, OR the EDGE bit into the mask; other pixels are left
unchanged (the reference computation in `tests/setCoaddEdgeBits.py` ORs
`where(depth > 0, 0, edgeMask)` into the mask). -/
def setCoaddEdgeBits (bbox : Box) (mask : Int × Int → Nat) (wmap : Int × Int → ℚ) :
    Int × Int → Nat :=
  fun p => if Box.mem bbox p ∧ wmap p = 0 then mask p ||| edgeBit else mask p

/-- The exposure-like product of `Coadd.getCoadd`: the normalized image plane,
the edge-classified mask and the coadd WCS. -/
structure CoaddResult where
  image : Int × Int → ℚ
  mask : Int × Int → Nat
  wcs : Wcs

/-- Operation `Coadd.getCoadd`: deep-copy the accumulator masked image, set
the edge bits of the copy's mask from the weight map, divide the copy by the
weight map, and wrap it with the coadd WCS.  Over `ℚ` a zero-weight pixel's
quotient is the junk value `0`; such pixels are EDGE-flagged and carry no
meaning. -/
def getCoadd (c : Coadd) : CoaddResult :=
  { image := fun p => c.sum p / c.weightMap p
    mask := setCoaddEdgeBits c.bbox c.cmask c.weightMap
    wcs := c.wcs }

/-- Operation `Coadd.getCoadd` together with the object state after the call:
the code operates on a deep copy (`coadd.py:132`), so the state is returned
intact. -/
def getCoaddFull (c : Coadd) : CoaddResult × Coadd :=
  (getCoadd c, c)

/-- Getter `Coadd.getWeightMap`; it returns the weight map itself, not a
copy. -/
def getWeightMap (c : Coadd) : Int × Int → ℚ :=
  c.weightMap

/-- Getter `Coadd.getBBox`. -/
def getBBox (c : Coadd) : Box :=
  c.bbox

/-- Getter `Coadd.getWcs`. -/
def getWcs (c : Coadd) : Wcs :=
  c.wcs

/-- Getter `Coadd.getBadPixelMask`. -/
def getBadPixelMask (c : Coadd) : Nat :=
  c.badPixelMask

/-- Getter `Coadd.getCoaddZeroPoint`. -/
def getCoaddZeroPoint (c : Coadd) : ℚ :=
  c.coaddZeroPoint

/-- One public operation on a `Coadd` object. -/
inductive Op where
  | add (e : Exposure) (weightFactor : ℚ)
  | getCoadd
  | getWeightMap

/-- State transition of one operation.  A failing `addExposure` (Python
exception) leaves the state unchanged; the read operations return copies or
references without writing. -/
def stepOp (c : Coadd) : Op → Coadd
  | .add e wf =>
    match addExposure c e wf with
    | none => c
    | some r => r.state
  | .getCoadd => (getCoaddFull c).2
  | .getWeightMap => c

/-- Run a sequence of operations from a starting state. -/
def runOps (c : Coadd) (ops : List Op) : Coadd :=
  ops.foldl stepOp c

/-! Concrete fixtures used to instantiate the theorems below. -/

/-- A one-by-one pixel grid at the origin. -/
def bx1 : Box := ⟨0, 0, 1, 1⟩

/-- A two-by-one pixel grid at the origin. -/
def bx2 : Box := ⟨0, 0, 2, 1⟩

/-- A fixed WCS handle. -/
def wcs0 : Wcs := ⟨0⟩

/-- A fresh one-pixel coadd with bad-pixel mask bit 0 and zero point 0. -/
def cd1 : Coadd := mkCoadd bx1 wcs0 1 0

/-- A fresh two-pixel coadd with bad-pixel mask bit 0 and zero point 0. -/
def cd2 : Coadd := mkCoadd bx2 wcs0 1 0

/-- A flat exposure: value 10, variance 4, no mask bits, flux 1 at every
magnitude. -/
def expFlat : Exposure :=
  { mi := { box := bx1, image := fun _ => 10, variance := fun _ => 4, mask := fun _ => 0 }
    calib := fun _ => 1
    wcs := wcs0 }

/-- A flat exposure whose flux at the coadd zero point is 2 (so the scale
factor applied before the statistics run is 1/2). -/
def expFluxTwo : Exposure :=
  { mi := { box := bx1, image := fun _ => 10, variance := fun _ => 4, mask := fun _ => 0 }
    calib := fun _ => 2
    wcs := wcs0 }

/-- An exposure whose variance plane is the constant −1. -/
def expNegVar : Exposure :=
  { mi := { box := bx1, image := fun _ => 10, variance := fun _ => -1, mask := fun _ => 0 }
    calib := fun _ => 1
    wcs := wcs0 }

/-- An exposure whose every pixel carries the bad-pixel mask bit. -/
def expAllMasked : Exposure :=
  { mi := { box := bx1, image := fun _ => 10, variance := fun _ => 4, mask := fun _ => 1 }
    calib := fun _ => 1
    wcs := wcs0 }

/-- A two-pixel exposure whose left pixel carries the bad-pixel mask bit and
whose right pixel is clean. -/
def expHalfMasked : Exposure :=
  { mi :=
      { box := bx2
        image := fun _ => 20
        variance := fun _ => 4
        mask := fun p => if p.1 = 0 then 1 else 0 }
    calib := fun _ => 1
    wcs := wcs0 }

/-! Basic geometry lemmas. -/

theorem mem_positions {b : Box} {p : Int × Int} : p ∈ b.positions ↔ Box.mem b p := by
  obtain ⟨x, y⟩ := p
  constructor
  · intro hp
    obtain ⟨j, hj, hin⟩ := List.mem_flatMap.mp hp
    obtain ⟨i, hi, heq⟩ := List.mem_map.mp hin
    rw [List.mem_range] at hj hi
    injection heq with hx hy
    unfold Box.mem
    refine ⟨by omega, by omega, by omega, by omega⟩
  · intro hmem
    obtain ⟨h1, h2, h3, h4⟩ := hmem
    apply List.mem_flatMap.mpr
    refine ⟨(y - b.y0).toNat, List.mem_range.mpr (by omega), ?_⟩
    apply List.mem_map.mpr
    refine ⟨(x - b.x0).toNat, List.mem_range.mpr (by omega), ?_⟩
    have hx : b.x0 + ((x - b.x0).toNat : Int) = x := by omega
    have hy : b.y0 + ((y - b.y0).toNat : Int) = y := by omega
    rw [hx, hy]

theorem Box.inter_self (b : Box) : Box.inter b b = b := by
  obtain ⟨x0, y0, w, h⟩ := b
  unfold Box.inter
  simp only [max_self, min_self, Box.mk.injEq]
  refine ⟨trivial, trivial, by omega, by omega⟩

/-! Bit-level lemmas about the reserved EDGE bit. -/

theorem and_edgeBit_eq_zero_iff {m : Nat} : m &&& edgeBit = 0 ↔ m.testBit 4 = false := by
  constructor
  · intro h
    have h4 := congrArg (fun n => n.testBit 4) h
    simp only [Nat.testBit_and, Nat.zero_testBit] at h4
    have he : Nat.testBit edgeBit 4 = true := by decide
    rw [he, Bool.and_true] at h4
    exact h4
  · intro h
    apply Nat.eq_of_testBit_eq
    intro i
    rw [Nat.testBit_and, Nat.zero_testBit]
    by_cases hi : i = 4
    · subst hi
      rw [h]
      rfl
    · have he : Nat.testBit edgeBit i = false := by
        have h16 : (edgeBit : Nat) = 2 ^ 4 := by norm_num [edgeBit]
        rw [h16, Nat.testBit_two_pow]
        exact decide_eq_false (by omega)
      rw [he, Bool.and_false]

theorem stripEdge_edge_free (m : Nat) : stripEdge m &&& edgeBit = 0 := by
  unfold stripEdge
  by_cases h : m &&& edgeBit = 0
  · rwa [if_pos h]
  · rw [if_neg h, and_edgeBit_eq_zero_iff, Nat.testBit_xor]
    have hm : m.testBit 4 = true := by
      cases h4 : m.testBit 4 with
      | false => exact absurd (and_edgeBit_eq_zero_iff.mpr h4) h
      | true => rfl
    have he : Nat.testBit edgeBit 4 = true := by decide
    rw [hm, he]
    rfl

theorem or_stripEdge_edge_free {a : Nat} (m : Nat) (h : a &&& edgeBit = 0) :
    (a ||| stripEdge m) &&& edgeBit = 0 := by
  rw [and_edgeBit_eq_zero_iff] at h ⊢
  rw [Nat.testBit_or, h, and_edgeBit_eq_zero_iff.mp (stripEdge_edge_free m)]
  rfl

theorem or_edgeBit_ne_zero (a : Nat) : (a ||| edgeBit) &&& edgeBit ≠ 0 := by
  intro h
  rw [and_edgeBit_eq_zero_iff, Nat.testBit_or] at h
  have he : Nat.testBit edgeBit 4 = true := by decide
  rw [he, Bool.or_true] at h
  exact Bool.noConfusion h

/-! Lemmas on the clipped-mean statistic. -/

theorem mean_const {xs : List ℚ} {c : ℚ} (hne : xs ≠ []) (h : ∀ x ∈ xs, x = c) :
    mean xs = some c := by
  have hrep : xs = List.replicate xs.length c := List.eq_replicate_iff.mpr ⟨rfl, h⟩
  have hlen : (xs.length : ℚ) ≠ 0 :=
    Nat.cast_ne_zero.mpr fun h0 => hne (List.length_eq_zero.mp h0)
  unfold mean
  rw [if_neg (by simpa [List.isEmpty_iff] using hne)]
  congr 1
  conv_lhs => rw [hrep]
  rw [List.sum_replicate, nsmul_eq_mul]
  field_simp

theorem clipStep_const {s : ℚ} {xs : List ℚ} {c : ℚ} (hne : xs ≠ []) (h : ∀ x ∈ xs, x = c) :
    clipStep s xs = xs := by
  unfold clipStep
  rw [mean_const hne h]
  have hdev : (xs.map fun x => (x - c) ^ 2).sum = 0 := by
    apply List.sum_eq_zero
    intro z hz
    obtain ⟨x, hx, rfl⟩ := List.mem_map.mp hz
    rw [h x hx, sub_self]
    ring
  refine List.filter_eq_self.mpr ?_
  intro x hx
  rw [h x hx]
  simp [hdev]

theorem iterate_clipStep_const {s : ℚ} {xs : List ℚ} {c : ℚ} (hne : xs ≠ [])
    (h : ∀ x ∈ xs, x = c) (n : Nat) : (clipStep s)^[n] xs = xs := by
  induction n with
  | zero => rfl
  | succ n ih => rw [Function.iterate_succ_apply, clipStep_const hne h, ih]

theorem meanClip_const {s : ℚ} {n : Nat} {xs : List ℚ} {c : ℚ} (hne : xs ≠ [])
    (h : ∀ x ∈ xs, x = c) : meanClip s n xs = some c := by
  unfold meanClip
  rw [iterate_clipStep_const hne h]
  exact mean_const hne h

theorem varSample_all_eq {mi : MaskedImage} {bad : Nat} {v : ℚ}
    (h : ∀ p, Box.mem mi.box p → mi.variance p = v) :
    ∀ x ∈ varSample mi bad, x = v := by
  intro x hx
  simp only [varSample, List.mem_map, List.mem_filter] at hx
  obtain ⟨p, ⟨hp, _⟩, rfl⟩ := hx
  exact h p (mem_positions.mp hp)

theorem varSample_ne_nil {mi : MaskedImage} {bad : Nat} (hw : 0 < mi.box.width)
    (hh : 0 < mi.box.height)
    (hmask : ∀ p, Box.mem mi.box p → mi.mask p &&& bad = 0) :
    varSample mi bad ≠ [] := by
  have hmem : Box.mem mi.box (mi.box.x0, mi.box.y0) := by
    unfold Box.mem
    refine ⟨le_refl _, by omega, le_refl _, by omega⟩
  have hfil : (mi.box.x0, mi.box.y0) ∈ mi.box.positions.filter
      fun p => mi.mask p &&& bad == 0 :=
    List.mem_filter.mpr ⟨mem_positions.mpr hmem, by simp [hmask _ hmem]⟩
  exact List.ne_nil_of_mem (List.mem_map_of_mem mi.variance hfil)

theorem statMeanVar_const {c : Coadd} {e : Exposure} {v : ℚ}
    (hv : ∀ p, Box.mem e.mi.box p → e.mi.variance p = v)
    (hmask : ∀ p, Box.mem e.mi.box p → e.mi.mask p &&& c.badPixelMask = 0)
    (hw : 0 < e.mi.box.width) (hh : 0 < e.mi.box.height) :
    statMeanVar c e =
      some (v * (1 / e.calib c.coaddZeroPoint * (1 / e.calib c.coaddZeroPoint))) := by
  unfold statMeanVar
  apply meanClip_const
  · exact varSample_ne_nil hw hh hmask
  · apply varSample_all_eq
    intro p hp
    show e.mi.variance p * _ = _
    rw [hv p hp]

/-! Unfolding lemmas for the add operation. -/

theorem addExposure_some {c : Coadd} {e : Exposure} {wf m : ℚ}
    (hf : e.calib c.coaddZeroPoint ≠ 0) (hm : statMeanVar c e = some m) (hm0 : m ≠ 0) :
    addExposure c e wf =
      some
        { overlap :=
            (addToCoadd c (scaleMaskedImage e.mi (1 / e.calib c.coaddZeroPoint)) (wf / m)).2
          weight := wf / m
          state :=
            (addToCoadd c (scaleMaskedImage e.mi (1 / e.calib c.coaddZeroPoint)) (wf / m)).1
          exposurePost := e } := by
  unfold addExposure
  rw [if_neg hf, hm]
  dsimp only
  rw [if_neg hm0]

theorem addExposure_inv {c : Coadd} {e : Exposure} {wf : ℚ} {r : AddResult}
    (h : addExposure c e wf = some r) :
    ∃ m, statMeanVar c e = some m ∧ m ≠ 0 ∧ e.calib c.coaddZeroPoint ≠ 0 ∧
      r =
        { overlap :=
            (addToCoadd c (scaleMaskedImage e.mi (1 / e.calib c.coaddZeroPoint)) (wf / m)).2
          weight := wf / m
          state :=
            (addToCoadd c (scaleMaskedImage e.mi (1 / e.calib c.coaddZeroPoint)) (wf / m)).1
          exposurePost := e } := by
  unfold addExposure at h
  by_cases hf : e.calib c.coaddZeroPoint = 0
  · rw [if_pos hf] at h
    exact Option.noConfusion h
  · rw [if_neg hf] at h
    cases hm : statMeanVar c e with
    | none =>
      rw [hm] at h
      exact Option.noConfusion h
    | some m =>
      rw [hm] at h
      dsimp only at h
      by_cases hm0 : m = 0
      · rw [if_pos hm0] at h
        exact Option.noConfusion h
      · rw [if_neg hm0] at h
        exact ⟨m, rfl, hm0, hf, (Option.some.injEq .. ▸ h).symm⟩

theorem stepOp_add {c : Coadd} {e : Exposure} {wf m : ℚ}
    (hf : e.calib c.coaddZeroPoint ≠ 0) (hm : statMeanVar c e = some m) (hm0 : m ≠ 0) :
    stepOp c (Op.add e wf) =
      (addToCoadd c (scaleMaskedImage e.mi (1 / e.calib c.coaddZeroPoint)) (wf / m)).1 := by
  simp only [stepOp]
  rw [addExposure_some hf hm hm0]

theorem addExposureWeight_eq {c : Coadd} {e : Exposure} {wf m : ℚ}
    (hf : e.calib c.coaddZeroPoint ≠ 0) (hm : statMeanVar c e = some m) (hm0 : m ≠ 0) :
    addExposureWeight c e wf = some (wf / m) := by
  unfold addExposureWeight
  rw [addExposure_some hf hm hm0]
  rfl

/-! Per-pixel lemmas on the accumulation kernel. -/

theorem addToCoadd_sum_good {c : Coadd} {mi : MaskedImage} {w : ℚ} {p : Int × Int}
    (hp : Box.mem (Box.inter c.bbox mi.box) p) (hok : mi.mask p &&& c.badPixelMask = 0) :
    (addToCoadd c mi w).1.sum p = c.sum p + w * mi.image p := by
  unfold addToCoadd
  exact if_pos ⟨hp, hok⟩

theorem addToCoadd_weightMap_good {c : Coadd} {mi : MaskedImage} {w : ℚ} {p : Int × Int}
    (hp : Box.mem (Box.inter c.bbox mi.box) p) (hok : mi.mask p &&& c.badPixelMask = 0) :
    (addToCoadd c mi w).1.weightMap p = c.weightMap p + w := by
  unfold addToCoadd
  exact if_pos ⟨hp, hok⟩

theorem addToCoadd_sum_bad {c : Coadd} {mi : MaskedImage} {w : ℚ} {p : Int × Int}
    (hbad : mi.mask p &&& c.badPixelMask ≠ 0) :
    (addToCoadd c mi w).1.sum p = c.sum p := by
  unfold addToCoadd
  exact if_neg fun hc => hbad hc.2

theorem addToCoadd_weightMap_bad {c : Coadd} {mi : MaskedImage} {w : ℚ} {p : Int × Int}
    (hbad : mi.mask p &&& c.badPixelMask ≠ 0) :
    (addToCoadd c mi w).1.weightMap p = c.weightMap p := by
  unfold addToCoadd
  exact if_neg fun hc => hbad hc.2

theorem addToCoadd_cmask_in {c : Coadd} {mi : MaskedImage} {w : ℚ} {p : Int × Int}
    (hp : Box.mem (Box.inter c.bbox mi.box) p) :
    (addToCoadd c mi w).1.cmask p = c.cmask p ||| stripEdge (mi.mask p) := by
  unfold addToCoadd
  exact if_pos hp

/-! Invariants preserved by every operation. -/

theorem stepOp_config (c : Coadd) (op : Op) :
    (stepOp c op).bbox = c.bbox ∧ (stepOp c op).wcs = c.wcs ∧
    (stepOp c op).badPixelMask = c.badPixelMask ∧
    (stepOp c op).coaddZeroPoint = c.coaddZeroPoint := by
  cases op with
  | getCoadd => exact ⟨rfl, rfl, rfl, rfl⟩
  | getWeightMap => exact ⟨rfl, rfl, rfl, rfl⟩
  | add e wf =>
    simp only [stepOp]
    cases h : addExposure c e wf with
    | none => exact ⟨rfl, rfl, rfl, rfl⟩
    | some r =>
      obtain ⟨m, hm, hm0, hf, rfl⟩ := addExposure_inv h
      exact ⟨rfl, rfl, rfl, rfl⟩

theorem runOps_config (c : Coadd) (ops : List Op) :
    (runOps c ops).bbox = c.bbox ∧ (runOps c ops).wcs = c.wcs ∧
    (runOps c ops).badPixelMask = c.badPixelMask ∧
    (runOps c ops).coaddZeroPoint = c.coaddZeroPoint := by
  induction ops generalizing c with
  | nil => exact ⟨rfl, rfl, rfl, rfl⟩
  | cons op ops ih =>
    obtain ⟨h1, h2, h3, h4⟩ := ih (stepOp c op)
    obtain ⟨g1, g2, g3, g4⟩ := stepOp_config c op
    exact ⟨h1.trans g1, h2.trans g2, h3.trans g3, h4.trans g4⟩

theorem stepOp_cmask_edge_free {c : Coadd} (hc : ∀ p, c.cmask p &&& edgeBit = 0) (op : Op) :
    ∀ p, (stepOp c op).cmask p &&& edgeBit = 0 := by
  intro p
  cases op with
  | getCoadd => exact hc p
  | getWeightMap => exact hc p
  | add e wf =>
    simp only [stepOp]
    cases h : addExposure c e wf with
    | none => exact hc p
    | some r =>
      obtain ⟨m, hm, hm0, hf, rfl⟩ := addExposure_inv h
      show (addToCoadd c _ _).1.cmask p &&& edgeBit = 0
      unfold addToCoadd
      dsimp only
      split
      · exact or_stripEdge_edge_free _ (hc p)
      · exact hc p

theorem runOps_cmask_edge_free {c : Coadd} (hc : ∀ p, c.cmask p &&& edgeBit = 0)
    (ops : List Op) : ∀ p, (runOps c ops).cmask p &&& edgeBit = 0 := by
  induction ops generalizing c with
  | nil => exact hc
  | cons op ops ih => exact ih (stepOp_cmask_edge_free hc op)

/-! Lemmas on the edge classifier. -/

theorem setCoaddEdgeBits_zero {bbox : Box} {mask : Int × Int → Nat} {wmap : Int × Int → ℚ}
    {p : Int × Int} (hp : Box.mem bbox p) (h0 : wmap p = 0) :
    setCoaddEdgeBits bbox mask wmap p = mask p ||| edgeBit :=
  if_pos ⟨hp, h0⟩

theorem setCoaddEdgeBits_pos {bbox : Box} {mask : Int × Int → Nat} {wmap : Int × Int → ℚ}
    {p : Int × Int} (h : ¬(Box.mem bbox p ∧ wmap p = 0)) :
    setCoaddEdgeBits bbox mask wmap p = mask p :=
  if_neg h

theorem setCoaddEdgeBits_idem (bbox : Box) (mask : Int × Int → Nat)
    (wmap : Int × Int → ℚ) :
    setCoaddEdgeBits bbox (setCoaddEdgeBits bbox mask wmap) wmap =
      setCoaddEdgeBits bbox mask wmap := by
  funext p
  unfold setCoaddEdgeBits
  by_cases h : Box.mem bbox p ∧ wmap p = 0
  · rw [if_pos h, if_pos h, Nat.or_assoc, Nat.or_self]
  · rw [if_neg h, if_neg h]

/-! The claims. -/

/-- C6: for every exposure passed to `Coadd.addExposure`, the caller's
exposure object (its pixel, variance and mask planes) is unchanged by the
call — the photometric normalization by `1 / fluxAtCoaddZeroPoint` is applied
only to a private deep copy, so whenever the call returns a result, the
exposure it leaves behind is the one passed in. -/
theorem C6_addExposure_preserves_input (c : Coadd) (e : Exposure) (wf : ℚ) :
    (addExposure c e wf).map AddResult.exposurePost =
      (addExposure c e wf).map fun _ => e := by
  cases h : addExposure c e wf with
  | none => rfl
  | some r =>
    obtain ⟨m, hm, hm0, hf, rfl⟩ := addExposure_inv h
    rfl

/-- C7: `Coadd.getCoadd` does not mutate the accumulator state — the state
after the call is the state before it, the returned product is the pure
function of the current state, and deleting a `getCoadd` call from any
operation sequence does not change the final state, so `getCoadd` may be
interleaved freely with further `addExposure` calls and always reflects the
current cumulative state. -/
theorem C7_getCoadd_pure (c : Coadd) (ops1 ops2 : List Op) :
    (getCoaddFull (runOps c ops1)).2 = runOps c ops1 ∧
    (getCoaddFull (runOps c ops1)).1 = getCoadd (runOps c ops1) ∧
    runOps c (ops1 ++ Op.getCoadd :: ops2) = runOps c (ops1 ++ ops2) := by
  refine ⟨rfl, rfl, ?_⟩
  unfold runOps
  rw [List.foldl_append, List.foldl_append]
  rfl

/-- C8: edge classification is idempotent — applying `setCoaddEdgeBits` to the
same mask any positive number of times with the same weight map yields the
same mask as applying it once. -/
theorem C8_setCoaddEdgeBits_idempotent (bbox : Box) (wmap : Int × Int → ℚ) (n : Nat) :
    ∀ mask : Int × Int → Nat,
      (fun m => setCoaddEdgeBits bbox m wmap)^[n + 1] mask =
        setCoaddEdgeBits bbox mask wmap := by
  induction n with
  | zero =>
    intro mask
    rfl
  | succ n ih =>
    intro mask
    rw [Function.iterate_succ_apply, ih]
    exact setCoaddEdgeBits_idem bbox mask wmap

/-- C9: after any sequence of `addExposure`, `getCoadd` and `getWeightMap`
calls, the getters `getBBox`, `getWcs`, `getBadPixelMask` and
`getCoaddZeroPoint` return exactly the values fixed at construction. -/
theorem C9_getters_fixed (bbox : Box) (w : Wcs) (bad : Nat) (zp : ℚ) (ops : List Op) :
    getBBox (runOps (mkCoadd bbox w bad zp) ops) = bbox ∧
    getWcs (runOps (mkCoadd bbox w bad zp) ops) = w ∧
    getBadPixelMask (runOps (mkCoadd bbox w bad zp) ops) = bad ∧
    getCoaddZeroPoint (runOps (mkCoadd bbox w bad zp) ops) = zp :=
  runOps_config (mkCoadd bbox w bad zp) ops

/-- C3: for every reachable accumulator state and every pixel of the coadd
bounding box, the mask produced by the edge classification inside `getCoadd`
has the EDGE bit set exactly when the weight-map value at that pixel is zero;
pixels with nonzero weight have the EDGE bit unset (the cumulative mask never
carries the reserved EDGE bit, since accumulation strips it). -/
theorem C3_edge_iff_zero_weight (bbox : Box) (w : Wcs) (bad : Nat) (zp : ℚ)
    (ops : List Op) (p : Int × Int) (hp : Box.mem bbox p) :
    (getCoadd (runOps (mkCoadd bbox w bad zp) ops)).mask p &&& edgeBit ≠ 0 ↔
      getWeightMap (runOps (mkCoadd bbox w bad zp) ops) p = 0 := by
  have hedge : (runOps (mkCoadd bbox w bad zp) ops).cmask p &&& edgeBit = 0 :=
    runOps_cmask_edge_free (fun _ => Nat.zero_and _) ops p
  have hbox : (runOps (mkCoadd bbox w bad zp) ops).bbox = bbox :=
    (runOps_config _ _).1
  show setCoaddEdgeBits _ _ _ p &&& edgeBit ≠ 0 ↔ _
  by_cases h0 : (runOps (mkCoadd bbox w bad zp) ops).weightMap p = 0
  · rw [setCoaddEdgeBits_zero (by rw [hbox]; exact hp) h0]
    exact ⟨fun _ => h0, fun _ => or_edgeBit_ne_zero _⟩
  · rw [setCoaddEdgeBits_pos fun hc => h0 hc.2]
    exact ⟨fun hne => absurd hedge hne, fun heq => absurd heq h0⟩

/-- Witness for C3 at a concrete fresh one-pixel coadd: the pixel has weight
zero and is EDGE-flagged. -/
theorem C3_edge_iff_zero_weight_witness :
    (getCoadd (runOps (mkCoadd bx1 wcs0 1 0) [])).mask (0, 0) &&& edgeBit ≠ 0 ↔
      getWeightMap (runOps (mkCoadd bx1 wcs0 1 0) []) (0, 0) = 0 :=
  C3_edge_iff_zero_weight bx1 wcs0 1 0 [] (0, 0) (by decide)

/-- C2: adding exactly one exposure with weight factor 1, full coverage of
the coadd bounding box and no pixels carrying bad-mask bits reproduces the
exposure's zero-point-scaled pixel values exactly in `getCoadd`, makes the
weight map equal to the computed weight `1 / meanVar` everywhere, and leaves
no EDGE bit set anywhere in the result. -/
theorem C2_single_exposure_identity (bbox : Box) (w : Wcs) (bad : Nat) (zp : ℚ)
    (e : Exposure) (m : ℚ)
    (hbox : e.mi.box = bbox)
    (hmask : ∀ p, Box.mem bbox p → e.mi.mask p &&& bad = 0)
    (hf : e.calib zp ≠ 0)
    (hm : statMeanVar (mkCoadd bbox w bad zp) e = some m)
    (hm0 : m ≠ 0) :
    addExposureWeight (mkCoadd bbox w bad zp) e 1 = some (1 / m) ∧
    ∀ p, Box.mem bbox p →
      (getCoadd (stepOp (mkCoadd bbox w bad zp) (Op.add e 1))).image p
          = e.mi.image p / e.calib zp ∧
      getWeightMap (stepOp (mkCoadd bbox w bad zp) (Op.add e 1)) p = 1 / m ∧
      (getCoadd (stepOp (mkCoadd bbox w bad zp) (Op.add e 1))).mask p &&& edgeBit = 0 := by
  have hfc : e.calib (mkCoadd bbox w bad zp).coaddZeroPoint ≠ 0 := hf
  refine ⟨addExposureWeight_eq hfc hm hm0, ?_⟩
  intro p hp
  have hov :
      Box.mem
        (Box.inter (mkCoadd bbox w bad zp).bbox
          (scaleMaskedImage e.mi (1 / e.calib (mkCoadd bbox w bad zp).coaddZeroPoint)).box)
        p := by
    show Box.mem (Box.inter bbox e.mi.box) p
    rw [hbox, Box.inter_self]
    exact hp
  have hok :
      (scaleMaskedImage e.mi (1 / e.calib (mkCoadd bbox w bad zp).coaddZeroPoint)).mask p &&&
        (mkCoadd bbox w bad zp).badPixelMask = 0 := hmask p hp
  have hw0 : (1 : ℚ) / m ≠ 0 := one_div_ne_zero hm0
  have hsum := addToCoadd_sum_good (w := 1 / m) hov hok
  have hwm := addToCoadd_weightMap_good (w := 1 / m) hov hok
  have hcm := addToCoadd_cmask_in (w := 1 / m) hov
  rw [stepOp_add hfc hm hm0]
  refine ⟨?_, ?_, ?_⟩
  · show _ / _ = _
    rw [hsum, hwm]
    show ((0 : ℚ) + 1 / m * (e.mi.image p * (1 / e.calib zp))) / (0 + 1 / m) = _
    rw [zero_add, zero_add, mul_div_cancel_left₀ _ hw0, mul_one_div]
  · show (addToCoadd _ _ _).1.weightMap p = _
    rw [hwm]
    show (0 : ℚ) + 1 / m = 1 / m
    rw [zero_add]
  · show setCoaddEdgeBits _ _ _ p &&& edgeBit = 0
    rw [setCoaddEdgeBits_pos, hcm]
    · exact or_stripEdge_edge_free _ (Nat.zero_and _)
    · intro hc
      apply hw0
      have := hc.2
      rw [hwm] at this
      rw [← this]
      exact (zero_add _).symm

unseal Rat.mul Rat.add Rat.inv Rat.sub in
/-- Witness for C2: a flat exposure of value 10, variance 4 and flux 1 on a
one-pixel coadd; the clipped mean variance is 4, the weight 1/4, and the
coadd pixel recovers the value 10. -/
theorem C2_single_exposure_identity_witness :
    addExposureWeight (mkCoadd bx1 wcs0 1 0) expFlat 1 = some (1 / 4) ∧
    (getCoadd (stepOp (mkCoadd bx1 wcs0 1 0) (Op.add expFlat 1))).image (0, 0)
        = expFlat.mi.image (0, 0) / expFlat.calib 0 ∧
    getWeightMap (stepOp (mkCoadd bx1 wcs0 1 0) (Op.add expFlat 1)) (0, 0) = 1 / 4 ∧
    (getCoadd (stepOp (mkCoadd bx1 wcs0 1 0) (Op.add expFlat 1))).mask (0, 0) &&&
      edgeBit = 0 := by
  have h := C2_single_exposure_identity bx1 wcs0 1 0 expFlat 4 rfl
    (fun _ _ => Nat.zero_and 1) (by norm_num [expFlat]) (by decide) (by norm_num)
  exact ⟨h.1, h.2 (0, 0) (by decide)⟩

/-- C1 (amended): the applied weight returned by `Coadd.addExposure` is the
weight factor divided by the clipped mean of the *scaled* variance plane (the
exposure's variance times the square of the photometric scale factor
`1 / fluxAtCoaddZeroPoint`); in particular, for an exposure with constant
variance `v` and no masked pixels the applied weight is
`weightFactor * fluxAtCoaddZeroPoint ^ 2 / v`, which reduces to
`weightFactor / v` exactly when the flux at the coadd zero point is 1. -/
theorem C1_weight_formula (c : Coadd) (e : Exposure) (wf : ℚ)
    (hf : e.calib c.coaddZeroPoint ≠ 0) :
    (∀ m, statMeanVar c e = some m → m ≠ 0 →
      addExposureWeight c e wf = some (wf / m)) ∧
    (∀ v : ℚ, v ≠ 0 →
      (∀ p, Box.mem e.mi.box p → e.mi.variance p = v) →
      (∀ p, Box.mem e.mi.box p → e.mi.mask p &&& c.badPixelMask = 0) →
      0 < e.mi.box.width → 0 < e.mi.box.height →
      addExposureWeight c e wf = some (wf * e.calib c.coaddZeroPoint ^ 2 / v)) := by
  refine ⟨fun m hm hm0 => addExposureWeight_eq hf hm hm0, ?_⟩
  intro v hv0 hv hmask hw hh
  have hm := statMeanVar_const hv hmask hw hh
  have hs0 : (1 : ℚ) / e.calib c.coaddZeroPoint ≠ 0 := one_div_ne_zero hf
  have hm0 : v * (1 / e.calib c.coaddZeroPoint * (1 / e.calib c.coaddZeroPoint)) ≠ 0 :=
    mul_ne_zero hv0 (mul_ne_zero hs0 hs0)
  rw [addExposureWeight_eq hf hm hm0]
  congr 1
  rw [one_div_mul_one_div, mul_one_div, ← pow_two, div_div_eq_mul_div]

/-- Witness for C1 (amended): the exposure `expFluxTwo` of constant variance
4 and flux 2 receives weight `1 * 2 ^ 2 / 4 = 1`. -/
theorem C1_weight_formula_witness :
    addExposureWeight (mkCoadd bx1 wcs0 1 0) expFluxTwo 1 =
      some (1 * expFluxTwo.calib 0 ^ 2 / 4) :=
  (C1_weight_formula (mkCoadd bx1 wcs0 1 0) expFluxTwo 1 (by norm_num [expFluxTwo])).2
    4 (by norm_num) (fun _ _ => rfl) (fun _ _ => Nat.zero_and 1) (by decide) (by decide)

unseal Rat.mul Rat.add Rat.inv Rat.sub in
/-- C1 counterexample: for the exposure `expFluxTwo` with constant variance
4, no masked pixels and weight factor 1, the claim as stated predicts applied
weight `1 / 4`, but the code runs the statistics on the variance plane of the
deep copy already scaled by `1/2` (so clipped mean 1) and returns weight 1. -/
theorem C1_weight_counterexample :
    addExposureWeight (mkCoadd bx1 wcs0 1 0) expFluxTwo 1 = some 1 ∧
    ¬ ((1 : ℚ) = 1 / 4) := by
  exact ⟨by decide, by norm_num⟩

/-- C4 (amended): `Coadd.addExposure` raises no `DegenerateVarianceError` —
no such error exists in the code.  When the clipped mean of the scaled
variance is exactly zero, or when no variance sample survives masking, the
call aborts with the underlying runtime failure and the accumulator is left
unchanged; a strictly negative clipped mean variance, however, raises no
error at all (see the counterexample, where the negative weight is folded
in). -/
theorem C4_degenerate_variance_amended (c : Coadd) (e : Exposure) (wf : ℚ)
    (hf : e.calib c.coaddZeroPoint ≠ 0)
    (hm : statMeanVar c e = none ∨ statMeanVar c e = some 0) :
    addExposure c e wf = none ∧ stepOp c (Op.add e wf) = c := by
  have hnone : addExposure c e wf = none := by
    unfold addExposure
    rw [if_neg hf]
    cases hm with
    | inl h => rw [h]
    | inr h =>
      rw [h]
      dsimp only
      rw [if_pos rfl]
  refine ⟨hnone, ?_⟩
  simp only [stepOp]
  rw [hnone]

unseal Rat.mul Rat.add Rat.inv Rat.sub in
/-- Witness for C4 (amended): an exposure whose every pixel is masked yields
an empty statistics sample; the add aborts and the accumulator is unchanged. -/
theorem C4_degenerate_variance_amended_witness :
    addExposure (mkCoadd bx1 wcs0 1 0) expAllMasked 1 = none ∧
    stepOp (mkCoadd bx1 wcs0 1 0) (Op.add expAllMasked 1) = mkCoadd bx1 wcs0 1 0 :=
  C4_degenerate_variance_amended (mkCoadd bx1 wcs0 1 0) expAllMasked 1
    (by norm_num [expAllMasked]) (Or.inl (by decide))

unseal Rat.mul Rat.add Rat.inv Rat.sub in
/-- C4 counterexample: the exposure `expNegVar` has clipped mean variance
−1 ≤ 0, yet `addExposure` raises no error: it returns weight −1 and folds it
into the accumulator (the weight map moves from 0 to −1), contradicting the
claim that any non-positive clipped mean variance fails with
`DegenerateVarianceError` leaving the state unchanged. -/
theorem C4_degenerate_variance_counterexample :
    addExposureWeight (mkCoadd bx1 wcs0 1 0) expNegVar 1 = some (-1) ∧
    (stepOp (mkCoadd bx1 wcs0 1 0) (Op.add expNegVar 1)).weightMap (0, 0) = -1 ∧
    ((-1 : ℚ) ≤ 0) := by
  refine ⟨by decide, by decide, by norm_num⟩

/-- C5: a pixel of the overlap whose exposure mask intersects the bad-pixel
mask contributes nothing to the running sum and the weight map — both are
unchanged at that pixel, whatever its numeric value — while its mask bits,
stripped of the reserved EDGE bit, are still ORed into the cumulative mask. -/
theorem C5_masked_pixel_skipped (c : Coadd) (e : Exposure) (wf m : ℚ) (p : Int × Int)
    (hf : e.calib c.coaddZeroPoint ≠ 0)
    (hm : statMeanVar c e = some m) (hm0 : m ≠ 0)
    (hp : Box.mem (Box.inter c.bbox e.mi.box) p)
    (hbad : e.mi.mask p &&& c.badPixelMask ≠ 0) :
    (stepOp c (Op.add e wf)).sum p = c.sum p ∧
    (stepOp c (Op.add e wf)).weightMap p = c.weightMap p ∧
    (stepOp c (Op.add e wf)).cmask p = c.cmask p ||| stripEdge (e.mi.mask p) := by
  rw [stepOp_add hf hm hm0]
  exact ⟨addToCoadd_sum_bad hbad, addToCoadd_weightMap_bad hbad, addToCoadd_cmask_in hp⟩

unseal Rat.mul Rat.add Rat.inv Rat.sub in
/-- Witness for C5: on a two-pixel coadd, the left pixel of `expHalfMasked`
carries the bad-pixel bit; after the add its sum and weight are untouched
while its mask bits are ORed in. -/
theorem C5_masked_pixel_skipped_witness :
    (stepOp (mkCoadd bx2 wcs0 1 0) (Op.add expHalfMasked 1)).sum (0, 0)
        = (mkCoadd bx2 wcs0 1 0).sum (0, 0) ∧
    (stepOp (mkCoadd bx2 wcs0 1 0) (Op.add expHalfMasked 1)).weightMap (0, 0)
        = (mkCoadd bx2 wcs0 1 0).weightMap (0, 0) ∧
    (stepOp (mkCoadd bx2 wcs0 1 0) (Op.add expHalfMasked 1)).cmask (0, 0)
        = (mkCoadd bx2 wcs0 1 0).cmask (0, 0) ||| stripEdge (expHalfMasked.mi.mask (0, 0)) :=
  C5_masked_pixel_skipped (mkCoadd bx2 wcs0 1 0) expHalfMasked 1 4 (0, 0)
    (by norm_num [expHalfMasked]) (by decide) (by norm_num) (by decide) (by decide)

/-- C10: `Coadd.addExposure` never validates the weight factor — for every
weight factor, including zero and negative values, the call succeeds whenever
the statistics succeed, returns exactly `weightFactor / meanVar` even when
that value is not positive, and folds it into the weight map unchanged. -/
theorem C10_no_weight_validation (c : Coadd) (e : Exposure) (m : ℚ)
    (hf : e.calib c.coaddZeroPoint ≠ 0)
    (hm : statMeanVar c e = some m) (hm0 : m ≠ 0) :
    ∀ wf : ℚ, addExposureWeight c e wf = some (wf / m) ∧
      ∀ p, Box.mem (Box.inter c.bbox e.mi.box) p →
        e.mi.mask p &&& c.badPixelMask = 0 →
        (stepOp c (Op.add e wf)).weightMap p = c.weightMap p + wf / m := by
  intro wf
  refine ⟨addExposureWeight_eq hf hm hm0, ?_⟩
  intro p hp hok
  rw [stepOp_add hf hm hm0]
  exact addToCoadd_weightMap_good hp hok

unseal Rat.mul Rat.add Rat.inv Rat.sub in
/-- Witness for C10: the negative weight factor −2 is accepted and the
resulting negative weight −1/2 is accumulated. -/
theorem C10_no_weight_validation_witness :
    addExposureWeight (mkCoadd bx1 wcs0 1 0) expFlat (-2) = some ((-2) / 4) ∧
    (stepOp (mkCoadd bx1 wcs0 1 0) (Op.add expFlat (-2))).weightMap (0, 0)
        = (mkCoadd bx1 wcs0 1 0).weightMap (0, 0) + (-2) / 4 := by
  have h := C10_no_weight_validation (mkCoadd bx1 wcs0 1 0) expFlat 4
    (by norm_num [expFlat]) (by decide) (by norm_num) (-2)
  exact ⟨h.1, h.2 (0, 0) (by decide) (Nat.zero_and 1)⟩

end CoaddUtils
